import Mathlib

/-!
Shallow embedding of the push-saas-metrics history-reconstruction engine
(src/git_metrics.py).  Python dictionaries are modelled as association
lists with unique keys, Python strings as Lean strings (or lists of
characters where convenient), subprocess invocations as explicit result
records passed in, and raised exceptions as the error side of Except.
-/

namespace PushSaasMetrics

/-- Python-level exceptions raised by git_metrics.py.  gitCommandError
carries the failing command line and the repository url, mirroring the
message built in GitMetrics._git_command; scannerError and parserError
stand for yaml.scanner.ScannerError and the other yaml parse-stage
errors; keyError and typeError are the builtin Python exceptions. -/
inductive PyErr where
  | gitCommandError (cmd : List String) (repo : String)
  | saasConfigReadError
  | scannerError
  | parserError
  | keyError
  | typeError
deriving DecidableEq, Repr

/-- Result of one subprocess execution: exit status and captured stdout
(already stripped). -/
structure ProcResult where
  returncode : Int
  out : String
deriving DecidableEq, Repr

/-- GitMetrics._git_command: runs git with the mirror git-dir; a non-zero
exit status raises GitCommandError naming the full command and the
repository, otherwise the stripped stdout is returned. -/
def git_command (gitDir repo : String) (cmd : List String) (r : ProcResult) :
    Except PyErr String :=
  if r.returncode ≠ 0 then
    .error (.gitCommandError (["git", "--git-dir", gitDir] ++ cmd) repo)
  else
    .ok r.out

/-- GitMetrics.clone: the source calls subprocess.call and discards its
return value (the exit status of git clone), so clone never raises, no
matter what the exit status was. -/
def clone (bare : Bool) (repo workDir : String) (_res : ProcResult) :
    Except PyErr Unit :=
  let _cmd :=
    if bare then ["git", "clone", "--bare", "--quiet", repo, workDir]
    else ["git", "clone", "--quiet", repo, workDir]
  .ok ()

/-- GitMetrics.pull: skipped entirely when the process-id marker file says
this process already pulled; otherwise a bare mirror runs fetch followed
by update-ref and a working mirror runs pull, each through _git_command
(so each non-zero exit raises). -/
def pull (bare : Bool) (gitDir repo : String) (alreadyPulled : Bool)
    (fetchR updateR pullR : ProcResult) : Except PyErr Unit :=
  if alreadyPulled then .ok ()
  else if bare then
    match git_command gitDir repo ["fetch", "-q", "origin", "master"] fetchR with
    | .error e => .error e
    | .ok _ =>
      match git_command gitDir repo ["update-ref", "HEAD", "FETCH_HEAD"] updateR with
      | .error e => .error e
      | .ok _ => .ok ()
  else
    match git_command gitDir repo ["pull", "-q"] pullR with
    | .error e => .error e
    | .ok _ => .ok ()

/-- The .git suffix appended by GitMetrics._canonicalize_url. -/
def gitSuffix : List Char := ['.', 'g', 'i', 't']

/-- GitMetrics._canonicalize_url, on the character list of the url: strip
one trailing slash, then append .git unless the url already ends with it.
(The source indexes repo[-1], so it assumes a non-empty url.) -/
def canonicalize_url (repo : List Char) : List Char :=
  let r := if repo.getLast? = some '/' then repo.dropLast else repo
  if gitSuffix.isSuffixOf r then r else r ++ gitSuffix

lemma canonicalize_url_suffix (u : List Char) :
    gitSuffix <:+ canonicalize_url u := by
  unfold canonicalize_url
  set r := if u.getLast? = some '/' then u.dropLast else u with hr
  by_cases h : gitSuffix.isSuffixOf r
  · simp only [h, if_true]
    exact List.isSuffixOf_iff_suffix.mp h
  · simp only [h, if_false, Bool.false_eq_true]
    exact List.suffix_append _ gitSuffix

lemma canonicalize_url_getLast (u : List Char) :
    (canonicalize_url u).getLast? = some 't' := by
  obtain ⟨w, hw⟩ := canonicalize_url_suffix u
  rw [← hw, List.getLast?_append_of_ne_nil w (by simp [gitSuffix])]
  rfl

lemma canonicalize_url_fixed (v : List Char) (hlast : v.getLast? = some 't')
    (hsuf : gitSuffix.isSuffixOf v = true) : canonicalize_url v = v := by
  unfold canonicalize_url
  simp [hlast, hsuf]

lemma canonicalize_url_idem (u : List Char) :
    canonicalize_url (canonicalize_url u) = canonicalize_url u :=
  canonicalize_url_fixed _ (canonicalize_url_getLast u)
    (List.isSuffixOf_iff_suffix.mpr (canonicalize_url_suffix u))

/-- Claim C10: for every non-empty url, _canonicalize_url returns a value
that ends with .git and does not end with a slash, and the function is
idempotent (canonicalizing an already canonical url changes nothing). -/
theorem c10_canonicalize_url_spec (u : List Char) (hu : u ≠ []) :
    gitSuffix <:+ canonicalize_url u ∧
    (canonicalize_url u).getLast? ≠ some '/' ∧
    canonicalize_url (canonicalize_url u) = canonicalize_url u := by
  refine ⟨canonicalize_url_suffix u, ?_, canonicalize_url_idem u⟩
  rw [canonicalize_url_getLast u]
  decide

/-- Claim C10 witness: the three properties evaluated on a concrete url
with a trailing slash and no .git suffix. -/
theorem c10_canonicalize_url_spec_witness :
    "https://github.com/org/repo/".toList ≠ [] ∧
    (gitSuffix <:+ canonicalize_url "https://github.com/org/repo/".toList ∧
     (canonicalize_url "https://github.com/org/repo/".toList).getLast? ≠ some '/' ∧
     canonicalize_url (canonicalize_url "https://github.com/org/repo/".toList) =
       canonicalize_url "https://github.com/org/repo/".toList) :=
  ⟨by decide, c10_canonicalize_url_spec _ (by decide)⟩

/-- Claim C2 counterexample: GitMetrics.clone with git exiting with status
1 still returns successfully (subprocess.call's return value is dropped),
so a failing clone does not raise GitCommandError as the claim states. -/
theorem c2_clone_swallows_failure :
    clone true "https://h/r.git" "wd" { returncode := 1, out := "" } = .ok () ∧
    (1 : Int) ≠ 0 :=
  ⟨rfl, by decide⟩

/-- Claim C2 amended: every refresh (pull) operation surfaces a non-zero
exit of its underlying git command as GitCommandError identifying the
command and the target repository, but clone ignores the exit status of
the underlying operation and never raises. -/
theorem c2_refresh_raises (gitDir repo : String)
    (fetchR updateR pullR cloneR : ProcResult) :
    (fetchR.returncode ≠ 0 →
      pull true gitDir repo false fetchR updateR pullR =
        .error (.gitCommandError
          (["git", "--git-dir", gitDir] ++ ["fetch", "-q", "origin", "master"])
          repo)) ∧
    (fetchR.returncode = 0 → updateR.returncode ≠ 0 →
      pull true gitDir repo false fetchR updateR pullR =
        .error (.gitCommandError
          (["git", "--git-dir", gitDir] ++ ["update-ref", "HEAD", "FETCH_HEAD"])
          repo)) ∧
    (pullR.returncode ≠ 0 →
      pull false gitDir repo false fetchR updateR pullR =
        .error (.gitCommandError
          (["git", "--git-dir", gitDir] ++ ["pull", "-q"]) repo)) ∧
    (∀ b w, clone b repo w cloneR = .ok ()) := by
  refine ⟨fun h1 => ?_, fun h0 h1 => ?_, fun h1 => ?_, fun b w => rfl⟩
  · simp [pull, git_command, h1]
  · simp [pull, git_command, h0, h1]
  · simp [pull, git_command, h1]

/-- Claim C2 witness: a bare refresh whose fetch exits with status 1
raises GitCommandError carrying the fetch command and the repository. -/
theorem c2_refresh_raises_witness :
    pull true "gd" "https://h/r.git" false
      { returncode := 1, out := "" } { returncode := 0, out := "" }
      { returncode := 0, out := "" } =
      .error (.gitCommandError
        (["git", "--git-dir", "gd"] ++ ["fetch", "-q", "origin", "master"])
        "https://h/r.git") :=
  (c2_refresh_raises "gd" "https://h/r.git"
    { returncode := 1, out := "" } { returncode := 0, out := "" }
    { returncode := 0, out := "" } { returncode := 1, out := "" }).1 (by decide)

/-- YAML values as returned by yaml.safe_load. -/
inductive Yaml where
  | str (s : String)
  | int (n : Int)
  | bool (b : Bool)
  | null
  | seq (xs : List Yaml)
  | map (kvs : List (String × Yaml))

/-- One structured file as read and parsed at a commit: the file may be
absent (git show exits non-zero), may fail at the yaml scanner stage
(yaml.scanner.ScannerError), may fail at a later yaml parse stage
(e.g. yaml.parser.ParserError), or parses to a value. -/
inductive FileRead where
  | missing
  | scanFailure
  | parseFailure
  | content (y : Yaml)

/-- Lookup of a key in a parsed YAML mapping. -/
def yamlLookup (key : String) : List (String × Yaml) → Option Yaml
  | [] => none
  | (k, v) :: rest => if k = key then some v else yamlLookup key rest

/-- SaasGitMetrics.get_yaml: git show on the path followed by
yaml.safe_load; each failure mode raises the corresponding exception. -/
def get_yaml (gitDir repo commit path : String) (f : FileRead) :
    Except PyErr Yaml :=
  match f with
  | .missing =>
      .error (.gitCommandError
        ["git", "--git-dir", gitDir, "show", commit ++ ":" ++ path] repo)
  | .scanFailure => .error .scannerError
  | .parseFailure => .error .parserError
  | .content y => .ok y

/-- SaasGitMetrics.get_services: catches GitCommandError and
yaml.scanner.ScannerError (returning zero services), requires the file to
be a mapping and its services key (defaulting to an empty list) to be a
list, and otherwise returns the raw list elements unvalidated.  Any other
exception propagates. -/
def get_services (gitDir repo commit path : String) (f : FileRead) :
    Except PyErr (List Yaml) :=
  match get_yaml gitDir repo commit path f with
  | .error (.gitCommandError _ _) => .ok []
  | .error .scannerError => .ok []
  | .error e => .error e
  | .ok y =>
    match y with
    | .map kvs =>
      match yamlLookup "services" kvs with
      | some (.seq l) => .ok l
      | some _ => .ok []
      | none => .ok []
    | _ => .ok []

/-- The service['name'] access performed by SaasGitMetrics.services while
building the snapshot keys: a non-mapping element raises TypeError and a
mapping without a name key raises KeyError. -/
def service_key_name (y : Yaml) : Except PyErr Yaml :=
  match y with
  | .map kvs =>
    match yamlLookup "name" kvs with
    | some v => .ok v
    | none => .error .keyError
  | _ => .error .typeError

/-- The body of the snapshot comprehension of SaasGitMetrics.services,
restricted to the elements coming from one file: each element is keyed by
(context name, element name), and any exception from the name access
propagates. -/
def collect_services (ctxName : String) :
    List Yaml → Except PyErr (List ((String × Yaml) × Yaml))
  | [] => .ok []
  | s :: rest =>
    match service_key_name s with
    | .error e => .error e
    | .ok n =>
      match collect_services ctxName rest with
      | .error e => .error e
      | .ok acc => .ok (((ctxName, n), s) :: acc)

/-- The contribution of one service-definition file to the catalog
snapshot of SaasGitMetrics.services. -/
def file_services (ctxName gitDir repo commit path : String) (f : FileRead) :
    Except PyErr (List ((String × Yaml) × Yaml)) :=
  match get_services gitDir repo commit path f with
  | .error e => .error e
  | .ok l => collect_services ctxName l

/-- SaasGitMetrics.__init__: reading config.yaml at head.  A
GitCommandError from git show is converted to SaasConfigReadError; a yaml
failure from safe_load propagates as itself (the safe_load call sits
outside the try block); the contexts key of the parsed mapping is then
accessed directly. -/
def saas_init (configFile : FileRead) : Except PyErr Yaml :=
  match configFile with
  | .missing => .error .saasConfigReadError
  | .scanFailure => .error .scannerError
  | .parseFailure => .error .parserError
  | .content y =>
    match y with
    | .map kvs =>
      match yamlLookup "contexts" kvs with
      | some v => .ok v
      | none => .error .keyError
    | _ => .error .typeError

/-- Claim C3 counterexample: a file whose services key holds a sequence
with a non-mapping element makes the snapshot construction raise
TypeError (the element shape is never validated before service['name']
is accessed), rather than contributing zero services without error. -/
theorem c3_element_raises :
    file_services "production" "gd" "https://h/r.git" "HEAD" "svc.yml"
      (.content (.map [("services", .seq [.str "oops"])])) =
      .error .typeError ∧
    (Except.error PyErr.typeError :
      Except PyErr (List ((String × Yaml) × Yaml))) ≠ .ok [] :=
  ⟨rfl, by simp⟩

/-- Claim C3 amended: a missing file, a scanner-stage parse failure, a
non-mapping top-level value, or a mapping whose services key is absent or
not a sequence contributes zero services to the snapshot and raises no
error (in particular a mapping without a sequence-valued services key);
other parse-stage failures and malformed sequence elements, however, are
not shielded and raise. -/
theorem c3_file_shape_tolerated (ctx gitDir repo commit path : String)
    (f : FileRead)
    (h : f = .missing ∨ f = .scanFailure ∨
         (∃ y, f = .content y ∧ ∀ kvs, y ≠ .map kvs) ∨
         (∃ kvs, f = .content (.map kvs) ∧
            ∀ l, yamlLookup "services" kvs ≠ some (.seq l))) :
    file_services ctx gitDir repo commit path f = .ok [] := by
  rcases h with h | h | ⟨y, rfl, hy⟩ | ⟨kvs, rfl, hk⟩
  · subst h; rfl
  · subst h; rfl
  · cases y with
    | str s => rfl
    | int n => rfl
    | bool b => rfl
    | null => rfl
    | seq xs => rfl
    | map kvs => exact absurd rfl (hy kvs)
  · cases hL : yamlLookup "services" kvs with
    | none =>
      simp [file_services, get_services, get_yaml, hL, collect_services]
    | some v =>
      cases v with
      | seq l => exact absurd hL (hk l)
      | str s =>
        simp [file_services, get_services, get_yaml, hL, collect_services]
      | int n =>
        simp [file_services, get_services, get_yaml, hL, collect_services]
      | bool b =>
        simp [file_services, get_services, get_yaml, hL, collect_services]
      | null =>
        simp [file_services, get_services, get_yaml, hL, collect_services]
      | map kvs2 =>
        simp [file_services, get_services, get_yaml, hL, collect_services]

/-- Claim C3 witness: a file parsing to a mapping without a services key
contributes zero services and no error. -/
theorem c3_file_shape_tolerated_witness :
    file_services "ctx" "gd" "https://h/r.git" "HEAD" "svc.yml"
      (.content (.map [("name", .str "x")])) = .ok [] :=
  c3_file_shape_tolerated "ctx" "gd" "https://h/r.git" "HEAD" "svc.yml" _
    (Or.inr (Or.inr (Or.inr ⟨[("name", Yaml.str "x")], rfl,
      fun l h => by simp [yamlLookup] at h⟩)))

/-- Claim C4 counterexample: a config.yaml that is present but fails to
parse makes construction raise the yaml scanner error, not
SaasConfigReadError (the safe_load call is outside the try block that
converts GitCommandError). -/
theorem c4_unparseable_config_not_converted :
    saas_init .scanFailure = .error .scannerError ∧
    (Except.error PyErr.scannerError : Except PyErr Yaml) ≠
      .error .saasConfigReadError :=
  ⟨rfl, by simp⟩

/-- Claim C4 amended: construction raises SaasConfigReadError exactly
when config.yaml is missing at head (unreadable via git show); an
unparseable configuration propagates the parse error itself. -/
theorem c4_config_read_error_iff (f : FileRead) :
    saas_init f = .error .saasConfigReadError ↔ f = .missing := by
  cases f with
  | missing => simp [saas_init]
  | scanFailure => simp [saas_init]
  | parseFailure => simp [saas_init]
  | content y =>
    cases y with
    | map kvs =>
      cases hL : yamlLookup "contexts" kvs with
      | none => simp [saas_init, hL]
      | some v => simp [saas_init, hL]
    | str s => simp [saas_init]
    | int n => simp [saas_init]
    | bool b => simp [saas_init]
    | null => simp [saas_init]
    | seq xs => simp [saas_init]

/-- A repository with a linear, single-root commit history, for the
read-only queries of GitMetrics.  commits lists the commit identifiers
from the head (first element) back to the unique root (last element);
resolve is the reference-resolution relation of the underlying git store
(branch names, HEAD, raw identifiers). -/
structure QueryRepo where
  repoUrl : String
  commits : List String
  resolve : String → Option String

/-- GitMetrics.rev_parse: resolution failure raises GitCommandError. -/
def rev_parse (q : QueryRepo) (ref : String) : Except PyErr String :=
  match q.resolve ref with
  | some c => .ok c
  | none => .error (.gitCommandError ["rev-parse", "-q", ref] q.repoUrl)

/-- The commits reachable backwards from c in a linear history (c itself
and everything older), as enumerated by git rev-list c. -/
def reachableFrom (commits : List String) (c : String) : List String :=
  commits.dropWhile (fun x => x ≠ c)

/-- git rev-list a..b --count on a linear history: the number of commits
reachable from b but not reachable from a. -/
def revListBetweenCount (commits : List String) (a b : String) : Nat :=
  ((reachableFrom commits b).filter
    (fun x => decide (x ∉ reachableFrom commits a))).length

/-- GitMetrics.count: resolve the ref, silently falling back to HEAD when
it does not resolve; obtain the unique root commit via
rev-list --max-parents=0 HEAD (which fails on an empty repository);
return the rev-list root..ref count, whose range endpoints git resolves
again. -/
def count (q : QueryRepo) (ref : String) : Except PyErr Nat :=
  let commit := match q.resolve ref with
                | some _ => ref
                | none => "HEAD"
  match q.commits.getLast? with
  | none =>
      .error (.gitCommandError ["rev-list", "--max-parents=0", "HEAD"] q.repoUrl)
  | some root =>
    match q.resolve commit with
    | none => .error (.gitCommandError ["rev-list", "--count"] q.repoUrl)
    | some c => .ok (revListBetweenCount q.commits root c)

lemma reachableFrom_getLast :
    ∀ (l : List String), l.Nodup → (h : l ≠ []) →
      reachableFrom l (l.getLast h) = [l.getLast h]
  | [], _, h => absurd rfl h
  | [a], _, _ => by simp [reachableFrom]
  | a :: b :: t, hnd, h => by
    have hne2 : (b :: t) ≠ [] := by simp
    have hmem : (b :: t).getLast hne2 ∈ b :: t := List.getLast_mem hne2
    have hane : a ≠ (b :: t).getLast hne2 := by
      intro heq
      exact (List.nodup_cons.mp hnd).1 (heq ▸ hmem)
    have hgl : (a :: b :: t).getLast h = (b :: t).getLast hne2 :=
      List.getLast_cons hne2
    rw [hgl]
    show List.dropWhile _ (a :: b :: t) = _
    rw [List.dropWhile_cons, if_pos (by simp [hane])]
    exact reachableFrom_getLast (b :: t) (List.nodup_cons.mp hnd).2 hne2

lemma revListBetweenCount_from_root (l : List String) (hnd : l.Nodup)
    (h : l ≠ []) (c : String) :
    revListBetweenCount l (l.getLast h) c =
      ((reachableFrom l c).filter
        (fun x => decide (x ≠ l.getLast h))).length := by
  unfold revListBetweenCount
  rw [reachableFrom_getLast l hnd h]
  congr 1
  refine List.filter_congr fun x _ => ?_
  simp

/-- Claim C7: count resolves its ref and substitutes HEAD without error
when resolution fails; a resolvable ref is counted as the number of
commits strictly after the unique root up to and including the ref; in
particular a ref resolving to the root commit itself counts 0. -/
theorem c7_count_spec (q : QueryRepo) (hne : q.commits ≠ [])
    (hnd : q.commits.Nodup) (hhead : q.resolve "HEAD" = q.commits.head?) :
    (∀ ref, q.resolve ref = none →
      count q ref = count q "HEAD" ∧ (count q "HEAD").isOk = true) ∧
    (∀ ref, q.resolve ref = some (q.commits.getLast hne) →
      count q ref = .ok 0) ∧
    (∀ ref c, q.resolve ref = some c →
      count q ref =
        .ok (((reachableFrom q.commits c).filter
          (fun x => decide (x ≠ q.commits.getLast hne))).length)) := by
  have hh : q.resolve "HEAD" = some (q.commits.head hne) := by
    rw [hhead]; exact List.head?_eq_head hne
  have hgl : q.commits.getLast? = some (q.commits.getLast hne) :=
    List.getLast?_eq_getLast q.commits hne
  refine ⟨fun ref h => ?_, fun ref h => ?_, fun ref c h => ?_⟩
  · constructor
    · simp only [count, h, hh]
    · simp only [count, hh, hgl, Except.isOk, Except.toBool]
  · simp only [count, h, hgl]
    rw [revListBetweenCount_from_root q.commits hnd hne]
    rw [reachableFrom_getLast q.commits hnd hne]
    simp
  · simp only [count, h, hgl]
    rw [revListBetweenCount_from_root q.commits hnd hne]

/-- A concrete three-commit linear repository used to evaluate the count
theorem: c3 is the head, c1 the root, and each identifier resolves to
itself. -/
def countRepo : QueryRepo where
  repoUrl := "https://h/r.git"
  commits := ["c3", "c2", "c1"]
  resolve := fun s =>
    if s = "HEAD" then some "c3"
    else if s = "c3" then some "c3"
    else if s = "c2" then some "c2"
    else if s = "c1" then some "c1"
    else none

/-- Claim C7 witness: on the three-commit repository, counting the root
gives 0, counting the middle commit gives 1, and an unresolvable sentinel
ref falls back to the HEAD count. -/
theorem c7_count_spec_witness :
    count countRepo "c1" = .ok 0 ∧
    count countRepo "none" = count countRepo "HEAD" :=
  ⟨(c7_count_spec countRepo (by decide) (by decide) (by decide)).2.1
      "c1" (by decide),
   ((c7_count_spec countRepo (by decide) (by decide) (by decide)).1
      "none" (by decide)).1⟩

/-- A Mirror as established by GitMetrics.__init__: identified by its
canonical repository url and its bare flag. -/
structure Mirror where
  repo : String
  bare : Bool
deriving DecidableEq, Repr

/-- GitMetrics._canonicalize_url on Lean strings. -/
def canonicalizeS (s : String) : String := ⟨canonicalize_url s.data⟩

lemma canonicalizeS_idem (s : String) :
    canonicalizeS (canonicalizeS s) = canonicalizeS s :=
  congrArg String.mk (canonicalize_url_idem s.data)

/-- SaasGitMetrics.fetch_repo_metrics: opens a bare mirror of the given
url (GitMetrics.__init__ canonicalizes the url again) and pairs it with
the url it was requested under. -/
def fetch_repo_metrics (repo : String) : String × Mirror :=
  (repo, { repo := canonicalizeS repo, bare := true })

/-- SaasGitMetrics.services_with_info, mirror-resolution part: the
distinct canonicalized upstream urls minus the deployment repository's
own url are fetched -- through the thread pool when poolsize > 0
(multiprocessing.dummy Pool.map returns the images in input order) and
through a plain dict comprehension otherwise -- and the deployment
repository's own url is then unconditionally mapped to the already-open
deployment mirror. -/
def upstream_resolve (selfRepo : String) (selfMirror : Mirror)
    (poolsize : Nat) (serviceUrls : List String) : List (String × Mirror) :=
  let upstream_urls :=
    ((serviceUrls.map canonicalizeS).dedup).filter (fun u => u ≠ selfRepo)
  let repo_metrics :=
    if poolsize > 0 then
      upstream_urls.map fetch_repo_metrics
    else
      upstream_urls.map (fun r => (r, (fetch_repo_metrics r).2))
  repo_metrics ++ [(selfRepo, selfMirror)]

lemma lookup_append_right {β : Type} (l₁ l₂ : List (String × β)) (a : String)
    (h : ∀ p ∈ l₁, p.1 ≠ a) : (l₁ ++ l₂).lookup a = l₂.lookup a := by
  induction l₁ with
  | nil => rfl
  | cons p t ih =>
    have hpa : (a == p.1) = false :=
      beq_eq_false_iff_ne.mpr fun heq => (h p (by simp)) heq.symm
    obtain ⟨k, v⟩ := p
    rw [List.cons_append, List.lookup_cons]
    simp only at hpa
    rw [hpa]
    exact ih fun q hq => h q (by simp [hq])

lemma lookup_map_self {β : Type} (l : List String) (g : String → β)
    (u : String) (hu : u ∈ l) :
    ((l.map (fun r => (r, g r))).lookup u) = some (g u) := by
  induction l with
  | nil => cases hu
  | cons a t ih =>
    rw [List.map_cons, List.lookup_cons]
    by_cases hau : u = a
    · subst hau; simp
    · have : (u == a) = false := by simp [hau]
      rw [this]
      exact ih (by cases List.mem_cons.mp hu with
        | inl h => exact absurd h hau
        | inr h => exact h)

lemma mem_keys_of_lookup {β : Type} (l : List (String × β)) (a : String)
    (b : β) (h : l.lookup a = some b) : a ∈ l.map Prod.fst := by
  induction l with
  | nil => cases h
  | cons p t ih =>
    obtain ⟨k, v⟩ := p
    rw [List.lookup_cons] at h
    by_cases hak : a = k
    · simp [hak]
    · have : (a == k) = false := by simp [hak]
      rw [this] at h
      simp [ih h]

/-- Claim C9 counterexample: with a deployment repository whose own url
is not referenced by any service, the resolver result still maps the
deployment url (to the deployment mirror), so its domain is strictly
larger than the set of distinct canonicalized upstream urls. -/
theorem c9_self_url_always_present :
    (upstream_resolve "https://g/saas.git" { repo := "https://g/saas.git", bare := false }
        0 ["https://g/app"]).lookup "https://g/saas.git" =
      some { repo := "https://g/saas.git", bare := false } ∧
    "https://g/saas.git" ∉ (["https://g/app"].map canonicalizeS) := by
  constructor
  · rfl
  · decide

/-- Claim C9 amended: the resolver result maps each distinct
canonicalized upstream url other than the deployment repository's own to
a bare mirror of that url, always maps the deployment repository's own
url (referenced or not) to the already-open deployment mirror, maps
nothing else, and the mapping built with poolsize = 0 (strictly
sequential) is equal to the one built with any poolsize > 0. -/
theorem c9_resolver_spec (selfRepo : String) (selfMirror : Mirror)
    (n : Nat) (urls : List String) :
    upstream_resolve selfRepo selfMirror n urls =
      upstream_resolve selfRepo selfMirror 0 urls ∧
    (upstream_resolve selfRepo selfMirror n urls).lookup selfRepo =
      some selfMirror ∧
    (∀ u, u ∈ (urls.map canonicalizeS).dedup → u ≠ selfRepo →
      (upstream_resolve selfRepo selfMirror n urls).lookup u =
        some { repo := u, bare := true }) ∧
    (∀ u m,
      (upstream_resolve selfRepo selfMirror n urls).lookup u = some m →
      u ∈ (urls.map canonicalizeS).dedup ∨ u = selfRepo) := by
  have hbranch : upstream_resolve selfRepo selfMirror n urls =
      upstream_resolve selfRepo selfMirror 0 urls := by
    cases n with
    | zero => rfl
    | succ k =>
      simp only [upstream_resolve]
      rw [if_pos (Nat.succ_pos k), if_neg (Nat.lt_irrefl 0)]
      rfl
  rw [hbranch]
  refine ⟨rfl, ?_, ?_, ?_⟩
  · rw [show upstream_resolve selfRepo selfMirror 0 urls =
      (((urls.map canonicalizeS).dedup).filter (fun u => u ≠ selfRepo)).map
        (fun r => (r, (fetch_repo_metrics r).2)) ++ [(selfRepo, selfMirror)]
      from rfl]
    rw [lookup_append_right _ _ _ ?_]
    · simp [List.lookup_cons]
    · intro p hp
      obtain ⟨r, hr, hrp⟩ := List.mem_map.mp hp
      have := List.mem_filter.mp hr
      rw [← hrp]
      simpa using this.2
  · intro u hu hne
    have humem : u ∈ ((urls.map canonicalizeS).dedup).filter
        (fun u => u ≠ selfRepo) :=
      List.mem_filter.mpr ⟨hu, by simpa using hne⟩
    rw [show upstream_resolve selfRepo selfMirror 0 urls =
      (((urls.map canonicalizeS).dedup).filter (fun u => u ≠ selfRepo)).map
        (fun r => (r, (fetch_repo_metrics r).2)) ++ [(selfRepo, selfMirror)]
      from rfl]
    rw [List.lookup_append]
    rw [lookup_map_self _ _ _ humem]
    have hcanon : canonicalizeS u = u := by
      obtain ⟨v, _, hv⟩ := List.mem_map.mp (List.mem_dedup.mp hu)
      rw [← hv]
      exact canonicalizeS_idem v
    simp [fetch_repo_metrics, hcanon]
  · intro u m hm
    have hkeys := mem_keys_of_lookup _ _ _ hm
    rw [show upstream_resolve selfRepo selfMirror 0 urls =
      (((urls.map canonicalizeS).dedup).filter (fun u => u ≠ selfRepo)).map
        (fun r => (r, (fetch_repo_metrics r).2)) ++ [(selfRepo, selfMirror)]
      from rfl] at hkeys
    rw [List.map_append, List.map_map] at hkeys
    rcases List.mem_append.mp hkeys with h | h
    · left
      have : u ∈ ((urls.map canonicalizeS).dedup).filter
          (fun u => u ≠ selfRepo) := by
        simpa using h
      exact (List.mem_filter.mp this).1
    · right
      simpa using h

/-- Claim C9 witness: with a pool of 3 workers, a referenced upstream url
distinct from the deployment url is mapped to a bare mirror of itself. -/
theorem c9_resolver_spec_witness :
    (upstream_resolve "https://g/saas.git"
      { repo := "https://g/saas.git", bare := false } 3
      ["https://g/app"]).lookup "https://g/app.git" =
      some { repo := "https://g/app.git", bare := true } :=
  (c9_resolver_spec "https://g/saas.git"
    { repo := "https://g/saas.git", bare := false } 3
    ["https://g/app"]).2.2.1 "https://g/app.git" (by decide) (by decide)

/-- A service definition as read from a catalog snapshot: the name, url
and hash fields that services_with_info and services_hash_history
access. -/
structure SvcDef where
  name : String
  url : String
  hash : String
deriving DecidableEq, Repr

/-- The (context name, service name) key of a catalog snapshot. -/
abbrev SvcKey := String × String

/-- One commit of the deployment repository: its identifier, its commit
timestamp, and the catalog snapshot (SaasGitMetrics.services) at that
commit. -/
structure DeployCommit where
  id : String
  ts : Int
  services : List (SvcKey × SvcDef)
deriving DecidableEq, Repr

/-- The deployment repository as seen by SaasGitMetrics: its url, its
commits from the head (first element) backwards in first-parent order,
and the commit counts answered by the upstream mirrors (upstreamCount
url ref models GitMetrics.count ref on the mirror of url). -/
structure SaasRepo where
  repoUrl : String
  commits : List DeployCommit
  upstreamCount : String → String → Nat

/-- The enriched service record handled by services_with_info and copied
(restricted to exactly these eight exported fields) by
services_hash_history. -/
structure SvcRec where
  hash : String
  name : String
  url : String
  context : String
  commit : String
  commit_ts : Int
  upstream_commits : Nat
  upstream_saas_commit_index : Nat
deriving DecidableEq, Repr

/-- GitMetrics.is_sha: only the length of the value is compared with 40;
the characters are never inspected. -/
def is_sha (h : String) : Bool := h.length == 40

/-- A well-formed 40-character hexadecimal commit identifier, as the
specification describes pinned commit references. -/
def isHexChar (c : Char) : Bool :=
  (('0'.val ≤ c.val) && (c.val ≤ '9'.val)) ||
  (('a'.val ≤ c.val) && (c.val ≤ 'f'.val)) ||
  (('A'.val ≤ c.val) && (c.val ≤ 'F'.val))

/-- A 40-character hex string (the specification's notion of a
well-formed pinned commit id). -/
def isHex40 (s : String) : Bool := (s.length == 40) && s.data.all isHexChar

/-- Python dict access keyed by the (context, name) tuple. -/
def alookup {β : Type} (st : SvcKey) : List (SvcKey × β) → Option β
  | [] => none
  | q :: t => if q.1 = st then some q.2 else alookup st t

/-- The per-service enrichment performed by services_with_info at the
head commit: context name, head commit identifier and timestamp, the
upstream total commit count, and the upstream index of the pinned hash
(a falsy pin counts the upstream HEAD instead). -/
def enrichSvc (r : SaasRepo) (head : DeployCommit)
    (p : SvcKey × SvcDef) : SvcRec where
  hash := p.2.hash
  name := p.2.name
  url := p.2.url
  context := p.1.1
  commit := head.id
  commit_ts := head.ts
  upstream_commits := r.upstreamCount (canonicalizeS p.2.url) "HEAD"
  upstream_saas_commit_index :=
    r.upstreamCount (canonicalizeS p.2.url)
      (if p.2.hash = "" then "HEAD" else p.2.hash)

/-- SaasGitMetrics.services_with_info: the head snapshot where each
service is enriched in place. -/
def services_with_info (r : SaasRepo) : List (SvcKey × SvcRec) :=
  match r.commits with
  | [] => []
  | head :: _ =>
    head.services.map (fun p => (p.1, enrichSvc r head p))

/-- One step of the inner loop of services_hash_history, processing one
head service at one ancestor commit.  A service already found is
skipped; a service missing from this snapshot, pinned here to a falsy
hash, pinned at head to a different hash than here, or whose head pin
fails is_sha, is appended to the found list with its candidate frozen;
otherwise the candidate's commit field is assigned the hash read from
this snapshot -- the shadowed commit_hash variable, i.e. the pin value,
not this ancestor's identifier -- and its commit_ts this ancestor's
timestamp. -/
def walk_step (snap : List (SvcKey × SvcDef)) (ts : Int)
    (acc : List SvcKey × List (SvcKey × SvcRec)) (p : SvcKey × SvcRec) :
    List SvcKey × List (SvcKey × SvcRec) :=
  if p.1 ∈ acc.1 then acc
  else
    match alookup p.1 snap with
    | none => (acc.1 ++ [p.1], acc.2)
    | some sd =>
      if sd.hash = "" ∨ p.2.hash ≠ sd.hash ∨ is_sha p.2.hash = false then
        (acc.1 ++ [p.1], acc.2)
      else
        (acc.1,
         acc.2.map (fun q =>
           if q.1 = p.1 then
             (q.1, { q.2 with commit := sd.hash, commit_ts := ts })
           else q))

/-- One full pass of services_hash_history over the head services at one
ancestor commit. -/
def walk_pass (snap : List (SvcKey × SvcDef)) (ts : Int)
    (head : List (SvcKey × SvcRec)) (found : List SvcKey)
    (hist : List (SvcKey × SvcRec)) :
    List SvcKey × List (SvcKey × SvcRec) :=
  head.foldl (walk_step snap ts) (found, hist)

/-- The backward walk of services_hash_history: starting from ancestor
offset 1, stop successfully once every head service has been found;
otherwise resolve HEAD~offset -- raising GitCommandError once the
ancestors are exhausted -- and run one pass over its snapshot.  The
second component counts the ancestor-offset iterations performed
(including a final failing resolution). -/
def walk_loop (repoUrl : String) (head : List (SvcKey × SvcRec)) :
    Nat → List DeployCommit → List SvcKey → List (SvcKey × SvcRec) →
    Except PyErr (List (SvcKey × SvcRec)) × Nat
  | idx, ancestors, found, hist =>
    if found.length = head.length then (.ok hist, 0)
    else
      match ancestors with
      | [] =>
        (.error (.gitCommandError
          ["rev-parse", "-q", "HEAD~" ++ toString idx] repoUrl), 1)
      | c :: rest =>
        let fh := walk_pass c.services c.ts head found hist
        let res := walk_loop repoUrl head (idx + 1) rest fh.1 fh.2
        (res.1, res.2 + 1)

/-- SaasGitMetrics.services_hash_history: enrich the head snapshot, copy
it as the initial candidate history, then walk the ancestors.  The
result keeps the (context, name) keys of the history dict whose values
the source returns. -/
def services_hash_history (r : SaasRepo) :
    Except PyErr (List (SvcKey × SvcRec)) × Nat :=
  let head := services_with_info r
  walk_loop r.repoUrl head 1 (r.commits.drop 1) [] head

/-- The (commit, commit_ts) pair reported for one service by a
successful services_hash_history run, if any. -/
def histResultFor (r : SaasRepo) (st : SvcKey) : Option (String × Int) :=
  match (services_hash_history r).1 with
  | .error _ => none
  | .ok hist => (alookup st hist).map (fun rec => (rec.commit, rec.commit_ts))

/-- A 40-character pin used by the three-commit scenario repository. -/
def hashA : String := "aaaaaaaaaaaaaaaaaaaaaaaaaaaaaaaaaaaaaaaa"

/-- A different 40-character pin, recorded at the root commit. -/
def hashB : String := "bbbbbbbbbbbbbbbbbbbbbbbbbbbbbbbbbbbbbbbb"

/-- The three-commit linear deployment repository of the claimed
scenario: head d3 and its parent d2 pin service S to hashA, the root d1
pins it to hashB. -/
def walkerRepo3 : SaasRepo where
  repoUrl := "https://g/saas.git"
  commits := [
    { id := "d3", ts := 30, services :=
        [(("prod", "S"),
          { name := "S", url := "https://g/app.git", hash := hashA })] },
    { id := "d2", ts := 20, services :=
        [(("prod", "S"),
          { name := "S", url := "https://g/app.git", hash := hashA })] },
    { id := "d1", ts := 10, services :=
        [(("prod", "S"),
          { name := "S", url := "https://g/app.git", hash := hashB })] }]
  upstreamCount := fun _ _ => 0

/-- A one-commit deployment repository whose only service is pinned to a
branch name. -/
def walkerRepo1 : SaasRepo where
  repoUrl := "https://g/saas.git"
  commits := [
    { id := "d1", ts := 10, services :=
        [(("prod", "S"),
          { name := "S", url := "https://g/app.git", hash := "master" })] }]
  upstreamCount := fun _ _ => 0

/-- Claim C1: on the three-commit scenario the walker does advance the
candidate's commit_ts to commit d2's timestamp, but the commit field
receives the pinned upstream hash hashA rather than d2's identifier: the
inner loop reassigns the commit_hash variable that held the resolved
ancestor id, so the value stored is the pin itself, contradicting the
function's own docstring (the commit that introduced the promotion). -/
theorem c1_commit_field_gets_pin_hash :
    histResultFor walkerRepo3 ("prod", "S") = some (hashA, 20) ∧
    hashA ≠ "d2" ∧
    walkerRepo3.commits.map DeployCommit.id = ["d3", "d2", "d1"] ∧
    walkerRepo3.commits.map DeployCommit.ts = [30, 20, 10] := by
  refine ⟨by decide, by decide, rfl, rfl⟩

/-- Claim C5 counterexample: on a one-commit repository whose service
pin is a branch name the walk does not return a result: the iteration at
offset 1 resolves HEAD~1, which does not exist, so services_hash_history
raises GitCommandError instead of completing without error. -/
theorem c5_walk_can_raise :
    (services_hash_history walkerRepo1).1 =
      .error (.gitCommandError ["rev-parse", "-q", "HEAD~1"]
        "https://g/saas.git") ∧
    walkerRepo1.commits.length = 1 :=
  ⟨rfl, rfl⟩

lemma walk_loop_steps_le (repoUrl : String) (head : List (SvcKey × SvcRec)) :
    ∀ (ancestors : List DeployCommit) (idx : Nat) (found : List SvcKey)
      (hist : List (SvcKey × SvcRec)),
      (walk_loop repoUrl head idx ancestors found hist).2 ≤
        ancestors.length + 1 := by
  intro ancestors
  induction ancestors with
  | nil =>
    intro idx found hist
    unfold walk_loop
    by_cases h : found.length = head.length <;> simp [h]
  | cons c rest ih =>
    intro idx found hist
    unfold walk_loop
    by_cases h : found.length = head.length
    · simp [h]
    · rw [if_neg h]
      show (walk_loop repoUrl head (idx + 1) rest _ _).2 + 1 ≤
        (c :: rest).length + 1
      rw [List.length_cons]
      exact Nat.add_le_add_right (ih (idx + 1) _ _) 1

/-- Claim C5 amended: the walk performs at most C ancestor-offset
iterations for a deployment repository with C commits -- it stops when
the open set empties, or raises GitCommandError at the iteration whose
ancestor offset has no commit -- but it does not always return a result
without error. -/
theorem c5_walk_iterations_bounded (r : SaasRepo) :
    (services_hash_history r).2 ≤ r.commits.length := by
  cases hc : r.commits with
  | nil =>
    have h0 : services_with_info r = [] := by
      unfold services_with_info
      rw [hc]
    show (walk_loop r.repoUrl (services_with_info r) 1
      (r.commits.drop 1) [] (services_with_info r)).2 ≤ _
    rw [h0, hc]
    unfold walk_loop
    simp
  | cons c rest =>
    have hb := walk_loop_steps_le r.repoUrl (services_with_info r)
      rest 1 [] (services_with_info r)
    show (walk_loop r.repoUrl (services_with_info r) 1
      (r.commits.drop 1) [] (services_with_info r)).2 ≤ (c :: rest).length
    rw [hc]
    exact hb

lemma alookup_cons {β : Type} (st : SvcKey) (q : SvcKey × β)
    (t : List (SvcKey × β)) :
    alookup st (q :: t) = if q.1 = st then some q.2 else alookup st t := rfl

lemma alookup_update_ne (st k : SvcKey) (f : SvcRec → SvcRec) :
    ∀ (hist : List (SvcKey × SvcRec)), st ≠ k →
      alookup st (hist.map (fun q => if q.1 = k then (q.1, f q.2) else q)) =
        alookup st hist
  | [], _ => rfl
  | q :: t, hne => by
    by_cases hq : q.1 = k
    · rw [List.map_cons, if_pos hq, alookup_cons, alookup_cons]
      have hqs : ¬ q.1 = st := fun h => hne (h.symm.trans hq)
      rw [if_neg hqs, if_neg hqs, alookup_update_ne st k f t hne]
    · rw [List.map_cons, if_neg hq, alookup_cons, alookup_cons]
      by_cases hqs : q.1 = st
      · rw [if_pos hqs, if_pos hqs]
      · rw [if_neg hqs, if_neg hqs, alookup_update_ne st k f t hne]

lemma mem_of_alookup {β : Type} (st : SvcKey) (b : β) :
    ∀ (l : List (SvcKey × β)), alookup st l = some b → (st, b) ∈ l
  | [], h => by cases h
  | q :: t, h => by
    rw [alookup_cons] at h
    by_cases hq : q.1 = st
    · rw [if_pos hq] at h
      have hqq : q = (st, b) := by
        obtain ⟨k, v⟩ := q
        obtain rfl : k = st := hq
        obtain rfl : v = b := Option.some.inj h
        rfl
      rw [hqq]
      exact List.mem_cons_self _ _
    · rw [if_neg hq] at h
      exact List.mem_cons_of_mem _ (mem_of_alookup st b t h)

lemma key_unique {β : Type} (st : SvcKey) (b : β) :
    ∀ (l : List (SvcKey × β)), (l.map Prod.fst).Nodup → (st, b) ∈ l →
      ∀ q ∈ l, q.1 = st → q = (st, b)
  | [], _, hm => by cases hm
  | p :: t, hnd, hm => by
    intro q hq hqs
    rw [List.map_cons, List.nodup_cons] at hnd
    rcases List.mem_cons.mp hm with hm1 | hm2
    · rcases List.mem_cons.mp hq with hq1 | hq2
      · rw [hq1, ← hm1]
      · exfalso
        apply hnd.1
        rw [← hm1]
        exact List.mem_map.mpr ⟨q, hq2, hqs⟩
    · rcases List.mem_cons.mp hq with hq1 | hq2
      · exfalso
        apply hnd.1
        have hps : p.1 = st := by rw [← hq1]; exact hqs
        rw [hps]
        exact List.mem_map.mpr ⟨(st, b), hm2, rfl⟩
      · exact key_unique st b t hnd.2 hm2 q hq2 hqs

/-- The per-service condition under which one pass of the walk moves a
service to the found list instead of touching its candidate: its key is
absent from the snapshot, or the snapshot pin is falsy, differs from the
head pin, or the head pin fails is_sha. -/
def frozen_at (snap : List (SvcKey × SvcDef)) (rec : SvcRec)
    (st : SvcKey) : Prop :=
  match alookup st snap with
  | none => True
  | some sd => sd.hash = "" ∨ rec.hash ≠ sd.hash ∨ is_sha rec.hash = false

lemma walk_step_eq_skip (snap : List (SvcKey × SvcDef)) (ts : Int)
    (acc : List SvcKey × List (SvcKey × SvcRec)) (p : SvcKey × SvcRec)
    (h : p.1 ∈ acc.1) : walk_step snap ts acc p = acc := by
  unfold walk_step
  rw [if_pos h]

lemma walk_step_eq_none (snap : List (SvcKey × SvcDef)) (ts : Int)
    (acc : List SvcKey × List (SvcKey × SvcRec)) (p : SvcKey × SvcRec)
    (h1 : p.1 ∉ acc.1) (h2 : alookup p.1 snap = none) :
    walk_step snap ts acc p = (acc.1 ++ [p.1], acc.2) := by
  unfold walk_step
  rw [if_neg h1, h2]

lemma walk_step_eq_found (snap : List (SvcKey × SvcDef)) (ts : Int)
    (acc : List SvcKey × List (SvcKey × SvcRec)) (p : SvcKey × SvcRec)
    (sd : SvcDef) (h1 : p.1 ∉ acc.1) (h2 : alookup p.1 snap = some sd)
    (h3 : sd.hash = "" ∨ p.2.hash ≠ sd.hash ∨ is_sha p.2.hash = false) :
    walk_step snap ts acc p = (acc.1 ++ [p.1], acc.2) := by
  unfold walk_step
  rw [if_neg h1, h2]
  show (if sd.hash = "" ∨ p.2.hash ≠ sd.hash ∨ is_sha p.2.hash = false
    then (acc.1 ++ [p.1], acc.2) else _) = (acc.1 ++ [p.1], acc.2)
  rw [if_pos h3]

lemma walk_step_eq_update (snap : List (SvcKey × SvcDef)) (ts : Int)
    (acc : List SvcKey × List (SvcKey × SvcRec)) (p : SvcKey × SvcRec)
    (sd : SvcDef) (h1 : p.1 ∉ acc.1) (h2 : alookup p.1 snap = some sd)
    (h3 : ¬ (sd.hash = "" ∨ p.2.hash ≠ sd.hash ∨ is_sha p.2.hash = false)) :
    walk_step snap ts acc p =
      (acc.1, acc.2.map (fun q =>
        if q.1 = p.1 then
          (q.1, { q.2 with commit := sd.hash, commit_ts := ts })
        else q)) := by
  unfold walk_step
  rw [if_neg h1, h2]
  show (if sd.hash = "" ∨ p.2.hash ≠ sd.hash ∨ is_sha p.2.hash = false
    then _ else _) = _
  rw [if_neg h3]

lemma walk_step_inv (snap : List (SvcKey × SvcDef)) (ts : Int) (st : SvcKey)
    (rec : SvcRec) (acc : List SvcKey × List (SvcKey × SvcRec))
    (p : SvcKey × SvcRec) (hf : st ∈ acc.1)
    (hl : alookup st acc.2 = some rec) :
    st ∈ (walk_step snap ts acc p).1 ∧
    alookup st (walk_step snap ts acc p).2 = some rec := by
  by_cases h1 : p.1 ∈ acc.1
  · rw [walk_step_eq_skip snap ts acc p h1]
    exact ⟨hf, hl⟩
  · cases hsnap : alookup p.1 snap with
    | none =>
      rw [walk_step_eq_none snap ts acc p h1 hsnap]
      exact ⟨List.mem_append_left _ hf, hl⟩
    | some sd =>
      by_cases h2 : sd.hash = "" ∨ p.2.hash ≠ sd.hash ∨
          is_sha p.2.hash = false
      · rw [walk_step_eq_found snap ts acc p sd h1 hsnap h2]
        exact ⟨List.mem_append_left _ hf, hl⟩
      · rw [walk_step_eq_update snap ts acc p sd h1 hsnap h2]
        refine ⟨hf, ?_⟩
        have hne : st ≠ p.1 := fun h => h1 (h ▸ hf)
        rw [alookup_update_ne st p.1
          (fun r0 => { r0 with commit := sd.hash, commit_ts := ts })
          acc.2 hne]
        exact hl

lemma walk_step_alookup_ne (snap : List (SvcKey × SvcDef)) (ts : Int)
    (acc : List SvcKey × List (SvcKey × SvcRec)) (p : SvcKey × SvcRec)
    (st : SvcKey) (hne : p.1 ≠ st) :
    alookup st (walk_step snap ts acc p).2 = alookup st acc.2 := by
  by_cases h1 : p.1 ∈ acc.1
  · rw [walk_step_eq_skip snap ts acc p h1]
  · cases hsnap : alookup p.1 snap with
    | none => rw [walk_step_eq_none snap ts acc p h1 hsnap]
    | some sd =>
      by_cases h2 : sd.hash = "" ∨ p.2.hash ≠ sd.hash ∨
          is_sha p.2.hash = false
      · rw [walk_step_eq_found snap ts acc p sd h1 hsnap h2]
      · rw [walk_step_eq_update snap ts acc p sd h1 hsnap h2]
        exact alookup_update_ne st p.1
          (fun r0 => { r0 with commit := sd.hash, commit_ts := ts })
          acc.2 (fun h => hne h.symm)

lemma walk_pass_foldl_inv (snap : List (SvcKey × SvcDef)) (ts : Int)
    (st : SvcKey) (rec : SvcRec) :
    ∀ (l : List (SvcKey × SvcRec))
      (acc : List SvcKey × List (SvcKey × SvcRec)),
      st ∈ acc.1 → alookup st acc.2 = some rec →
      st ∈ (l.foldl (walk_step snap ts) acc).1 ∧
      alookup st (l.foldl (walk_step snap ts) acc).2 = some rec
  | [], acc, h1, h2 => ⟨h1, h2⟩
  | p :: t, acc, h1, h2 => by
    rw [List.foldl_cons]
    obtain ⟨h1x, h2x⟩ := walk_step_inv snap ts st rec acc p h1 h2
    exact walk_pass_foldl_inv snap ts st rec t _ h1x h2x

lemma walk_pass_found (snap : List (SvcKey × SvcDef)) (ts : Int)
    (st : SvcKey) (rec : SvcRec) (hfz : frozen_at snap rec st) :
    ∀ (l : List (SvcKey × SvcRec))
      (acc : List SvcKey × List (SvcKey × SvcRec)),
      (∀ q ∈ l, q.1 = st → q = (st, rec)) →
      alookup st acc.2 = some rec →
      (st ∈ acc.1 ∨ (st, rec) ∈ l) →
      st ∈ (l.foldl (walk_step snap ts) acc).1 ∧
      alookup st (l.foldl (walk_step snap ts) acc).2 = some rec := by
  intro l
  induction l with
  | nil =>
    intro acc hkey hl hmem
    rcases hmem with h | h
    · exact ⟨h, hl⟩
    · cases h
  | cons p t ih =>
    intro acc hkey hl hmem
    rw [List.foldl_cons]
    by_cases hacc : st ∈ acc.1
    · obtain ⟨h1x, h2x⟩ := walk_step_inv snap ts st rec acc p hacc hl
      exact walk_pass_foldl_inv snap ts st rec t _ h1x h2x
    · by_cases hps : p.1 = st
      · have hp : p = (st, rec) := hkey p (List.mem_cons_self _ _) hps
        subst hp
        have hstep : walk_step snap ts acc (st, rec) =
            (acc.1 ++ [st], acc.2) := by
          cases hsnap : alookup st snap with
          | none => exact walk_step_eq_none snap ts acc (st, rec) hacc hsnap
          | some sd =>
            have hcond : sd.hash = "" ∨ rec.hash ≠ sd.hash ∨
                is_sha rec.hash = false := by
              unfold frozen_at at hfz
              rw [hsnap] at hfz
              exact hfz
            exact walk_step_eq_found snap ts acc (st, rec) sd hacc
              hsnap hcond
        rw [hstep]
        exact walk_pass_foldl_inv snap ts st rec t _
          (List.mem_append_right _ (List.mem_singleton.mpr rfl)) hl
      · have hl2 : alookup st (walk_step snap ts acc p).2 = some rec := by
          rw [walk_step_alookup_ne snap ts acc p st hps]
          exact hl
        have hmem2 : st ∈ (walk_step snap ts acc p).1 ∨ (st, rec) ∈ t := by
          rcases hmem with h | h
          · exact absurd h hacc
          · rcases List.mem_cons.mp h with h0 | h0
            · exact absurd (congrArg Prod.fst h0.symm) hps
            · exact Or.inr h0
        exact ih _ (fun q hq => hkey q (List.mem_cons_of_mem _ hq)) hl2 hmem2

lemma walk_loop_preserves (repoUrl : String)
    (head : List (SvcKey × SvcRec)) (st : SvcKey) (rec : SvcRec) :
    ∀ (ancestors : List DeployCommit) (idx : Nat) (found : List SvcKey)
      (hist hist2 : List (SvcKey × SvcRec)),
      st ∈ found → alookup st hist = some rec →
      (walk_loop repoUrl head idx ancestors found hist).1 = .ok hist2 →
      alookup st hist2 = some rec := by
  intro ancestors
  induction ancestors with
  | nil =>
    intro idx found hist hist2 hf hl hok
    unfold walk_loop at hok
    by_cases h : found.length = head.length
    · rw [if_pos h] at hok
      cases hok
      exact hl
    · rw [if_neg h] at hok
      cases hok
  | cons c rest ih =>
    intro idx found hist hist2 hf hl hok
    unfold walk_loop at hok
    by_cases h : found.length = head.length
    · rw [if_pos h] at hok
      cases hok
      exact hl
    · rw [if_neg h] at hok
      obtain ⟨h1, h2⟩ := walk_pass_foldl_inv c.services c.ts st rec head
        (found, hist) hf hl
      exact ih (idx + 1) _ _ hist2 h1 h2 hok

lemma walk_loop_found_first (repoUrl : String)
    (head : List (SvcKey × SvcRec)) (st : SvcKey) (rec : SvcRec)
    (hkey : ∀ q ∈ head, q.1 = st → q = (st, rec))
    (hmem : (st, rec) ∈ head) :
    ∀ (ancestors : List DeployCommit) (idx : Nat) (found : List SvcKey)
      (hist hist2 : List (SvcKey × SvcRec)),
      alookup st hist = some rec →
      (∀ c rest0, ancestors = c :: rest0 → frozen_at c.services rec st) →
      (walk_loop repoUrl head idx ancestors found hist).1 = .ok hist2 →
      alookup st hist2 = some rec := by
  intro ancestors idx found hist hist2 hl hfz hok
  cases ancestors with
  | nil =>
    unfold walk_loop at hok
    by_cases h : found.length = head.length
    · rw [if_pos h] at hok
      cases hok
      exact hl
    · rw [if_neg h] at hok
      cases hok
  | cons c rest =>
    unfold walk_loop at hok
    by_cases h : found.length = head.length
    · rw [if_pos h] at hok
      cases hok
      exact hl
    · rw [if_neg h] at hok
      obtain ⟨h1, h2⟩ := walk_pass_found c.services c.ts st rec
        (hfz c rest rfl) head (found, hist) hkey hl (Or.inr hmem)
      exact walk_loop_preserves repoUrl head st rec rest (idx + 1)
        _ _ hist2 h1 h2 hok

lemma alookup_map_mk {β γ : Type} (st : SvcKey) (g : SvcKey × β → γ)
    (out : γ) :
    ∀ (l : List (SvcKey × β)),
      alookup st (l.map (fun p => (p.1, g p))) = some out →
      ∃ p, p ∈ l ∧ out = g p
  | [], h => by cases h
  | q :: t, h => by
    rw [List.map_cons, alookup_cons] at h
    by_cases hq : q.1 = st
    · rw [if_pos hq] at h
      exact ⟨q, List.mem_cons_self _ _, (Option.some.inj h).symm⟩
    · rw [if_neg hq] at h
      obtain ⟨p, hp, ho⟩ := alookup_map_mk st g out t h
      exact ⟨p, List.mem_cons_of_mem _ hp, ho⟩

lemma services_with_info_mem_head (r : SaasRepo) (st : SvcKey)
    (rec : SvcRec)
    (h : alookup st (services_with_info r) = some rec) :
    ∃ c rest, r.commits = c :: rest ∧ rec.commit = c.id ∧
      rec.commit_ts = c.ts := by
  unfold services_with_info at h
  cases hc : r.commits with
  | nil =>
    rw [hc] at h
    cases h
  | cons c rest =>
    rw [hc] at h
    obtain ⟨p, _, ho⟩ := alookup_map_mk st (enrichSvc r c) rec c.services h
    exact ⟨c, rest, rfl, by rw [ho]; rfl, by rw [ho]; rfl⟩

/-- A 40-character pin made of letters outside the hexadecimal range. -/
def hashZ : String := "zzzzzzzzzzzzzzzzzzzzzzzzzzzzzzzzzzzzzzzz"

/-- A three-commit repository whose service pin is a 40-character
non-hexadecimal value, recorded at head e3 and its parent e2 but not at
the root e1. -/
def walkerRepoZ : SaasRepo where
  repoUrl := "https://g/saas.git"
  commits := [
    { id := "e3", ts := 30, services :=
        [(("prod", "S"),
          { name := "S", url := "https://g/app.git", hash := hashZ })] },
    { id := "e2", ts := 20, services :=
        [(("prod", "S"),
          { name := "S", url := "https://g/app.git", hash := hashZ })] },
    { id := "e1", ts := 10, services :=
        [(("prod", "S"),
          { name := "S", url := "https://g/app.git", hash := "other" })] }]
  upstreamCount := fun _ _ => 0

/-- Claim C6 counterexample: a pinned reference of 40 non-hexadecimal
characters is not a well-formed hex commit id, yet is_sha accepts it
(only the length is checked), so the walker does walk the ancestry and
moves commit_ts to the parent's timestamp 20 (and commit to the pin)
instead of keeping the head values (e3, 30). -/
theorem c6_nonhex_pin_still_walked :
    isHex40 hashZ = false ∧
    histResultFor walkerRepoZ ("prod", "S") = some (hashZ, 20) ∧
    (walkerRepoZ.commits.map (fun c => (c.id, c.ts))).head? =
      some ("e3", 30) ∧
    (hashZ, (20 : Int)) ≠ ("e3", 30) := by
  refine ⟨by decide, by decide, rfl, by decide⟩

/-- Claim C6 amended: for every service whose head-recorded pinned
reference is not exactly 40 characters long (is_sha tests only the
length, not hexness), a successful walk reports that service unchanged
from its head record, whose commit and commit_ts are the head commit
identifier and head timestamp. -/
theorem c6_short_pin_keeps_head (r : SaasRepo) (st : SvcKey) (rec : SvcRec)
    (hist : List (SvcKey × SvcRec))
    (hnd : ((services_with_info r).map Prod.fst).Nodup)
    (hrec : alookup st (services_with_info r) = some rec)
    (hsha : is_sha rec.hash = false)
    (hok : (services_hash_history r).1 = .ok hist) :
    alookup st hist = some rec ∧
    ∃ c rest, r.commits = c :: rest ∧ rec.commit = c.id ∧
      rec.commit_ts = c.ts := by
  have hmem := mem_of_alookup st rec (services_with_info r) hrec
  have hkey := key_unique st rec (services_with_info r) hnd hmem
  have hfz : ∀ c rest0, r.commits.drop 1 = c :: rest0 →
      frozen_at c.services rec st := by
    intro c rest0 _
    unfold frozen_at
    cases alookup st c.services with
    | none => trivial
    | some sd => exact Or.inr (Or.inr hsha)
  refine ⟨?_, services_with_info_mem_head r st rec hrec⟩
  exact walk_loop_found_first r.repoUrl (services_with_info r) st rec
    hkey hmem (r.commits.drop 1) 1 [] (services_with_info r) hist
    hrec hfz hok

/-- A two-commit repository whose only service is pinned to a branch
name at both commits. -/
def walkerRepoM : SaasRepo where
  repoUrl := "https://g/saas.git"
  commits := [
    { id := "f2", ts := 200, services :=
        [(("prod", "S"),
          { name := "S", url := "https://g/app.git", hash := "master" })] },
    { id := "f1", ts := 100, services :=
        [(("prod", "S"),
          { name := "S", url := "https://g/app.git", hash := "master" })] }]
  upstreamCount := fun _ _ => 0

/-- The head record of walkerRepoM's only service. -/
def recM : SvcRec where
  hash := "master"
  name := "S"
  url := "https://g/app.git"
  context := "prod"
  commit := "f2"
  commit_ts := 200
  upstream_commits := 0
  upstream_saas_commit_index := 0

/-- Claim C6 witness: the branch-pinned service of walkerRepoM keeps its
head record (commit f2, timestamp 200) in the walker result. -/
theorem c6_short_pin_keeps_head_witness :
    is_sha recM.hash = false ∧
    alookup ("prod", "S") [(("prod", "S"), recM)] = some recM :=
  ⟨by decide,
   (c6_short_pin_keeps_head walkerRepoM ("prod", "S") recM
      [(("prod", "S"), recM)] (by decide) (by decide) (by decide) rfl).1⟩

/-- Claim C8: a service present in the head snapshot but absent from the
snapshot at ancestor offset 1 is reported, by a successful walk, exactly
as its head record (it is moved to the found list during the first pass,
whose lookup raises KeyError, and its candidate is never touched). -/
theorem c8_absent_at_offset_one (r : SaasRepo) (st : SvcKey) (rec : SvcRec)
    (hist : List (SvcKey × SvcRec)) (c1 : DeployCommit)
    (hnd : ((services_with_info r).map Prod.fst).Nodup)
    (hrec : alookup st (services_with_info r) = some rec)
    (hd1 : (r.commits.drop 1).head? = some c1)
    (habs : alookup st c1.services = none)
    (hok : (services_hash_history r).1 = .ok hist) :
    alookup st hist = some rec := by
  have hmem := mem_of_alookup st rec (services_with_info r) hrec
  have hkey := key_unique st rec (services_with_info r) hnd hmem
  have hfz : ∀ c rest0, r.commits.drop 1 = c :: rest0 →
      frozen_at c.services rec st := by
    intro c rest0 heq
    have hcc : c = c1 := by
      rw [heq] at hd1
      exact Option.some.inj hd1
    rw [hcc]
    unfold frozen_at
    rw [habs]
    exact trivial
  exact walk_loop_found_first r.repoUrl (services_with_info r) st rec
    hkey hmem (r.commits.drop 1) 1 [] (services_with_info r) hist
    hrec hfz hok

/-- A two-commit repository whose only service appears at the head
commit g2 but not at its parent g1. -/
def walkerRepoN : SaasRepo where
  repoUrl := "https://g/saas.git"
  commits := [
    { id := "g2", ts := 200, services :=
        [(("prod", "S"),
          { name := "S", url := "https://g/app.git", hash := hashA })] },
    { id := "g1", ts := 100, services := [] }]
  upstreamCount := fun _ _ => 0

/-- The head record of walkerRepoN's only service. -/
def recN : SvcRec where
  hash := hashA
  name := "S"
  url := "https://g/app.git"
  context := "prod"
  commit := "g2"
  commit_ts := 200
  upstream_commits := 0
  upstream_saas_commit_index := 0

/-- Claim C8 witness: the newly-added service of walkerRepoN is reported
exactly as its head record. -/
theorem c8_absent_at_offset_one_witness :
    alookup ("prod", "S") [(("prod", "S"), recN)] = some recN :=
  c8_absent_at_offset_one walkerRepoN ("prod", "S") recN
    [(("prod", "S"), recN)] { id := "g1", ts := 100, services := [] }
    (by decide) (by decide) rfl rfl rfl

end PushSaasMetrics
